import Mathlib

/-!
# StorageManager: a dual-index inventory registry

A shallow embedding of `src/main.cpp`.

* `std::string` is a Lean `String`; `operator<` on `std::string` (the ordering
  of `std::map<std::string, _>`) is the lexicographic comparison `stringLess`.
* `std::shared_ptr<StoredItem>` is the (immutable, non-null) `StoredItem` it
  points to.
* Both containers are association lists kept in strictly ascending key order.
  For `std::map` this is its iteration order.  `std::unordered_map` has no
  observable order in this program (it is never iterated), so the same
  canonical representation is used: two models are equal exactly when the
  containers hold the same key/value pairs.
* A member function call yields an `Outcome`: the value returned or the
  exception thrown, the manager after the call, and the lines written to
  `std::cout`.
-/

namespace StorageManager

/-- The two exception classes of the program, each carrying its `what()` text. -/
inductive Exception where
  | DuplicateItemException (msg : String)
  | ItemNotFoundException (msg : String)
  deriving DecidableEq, Repr

/-- The class `StoredItem`: three private strings with read-only accessors. -/
structure StoredItem where
  id : String
  description : String
  location : String
  deriving DecidableEq, Repr

/-- Lexicographic comparison of two character sequences, first difference
decides, a proper prefix is smaller (`std::lexicographical_compare`).
Characters are compared by code point, which orders UTF-8 text as the
byte-wise comparison of `std::char_traits<char>` does. -/
def lexLess : List Char → List Char → Bool
  | [], [] => false
  | [], _ :: _ => true
  | _ :: _, [] => false
  | a :: as, b :: bs =>
    if a.toNat < b.toNat then true
    else if b.toNat < a.toNat then false
    else lexLess as bs

/-- The comparison `operator<` of `std::string`, used by `std::map` as its key order. -/
def stringLess (a b : String) : Bool := lexLess a.data b.data

/-- A container from string keys to items, as an association list. -/
abbrev ItemMap := List (String × StoredItem)

/-- Member `find` of the containers: the item stored under key `k`, if any. -/
def find : ItemMap → String → Option StoredItem
  | [], _ => none
  | (k', v) :: rest, k => if k' = k then some v else find rest k

/-- Member `count` of the containers: 1 when the key is present, else 0. -/
def count (m : ItemMap) (k : String) : Nat :=
  match find m k with
  | some _ => 1
  | none => 0

/-- The assignment `m[k] = v`: inserts the key at its place in key order, or
replaces the item of an existing key. -/
def assign : ItemMap → String → StoredItem → ItemMap
  | [], k, v => [(k, v)]
  | (k', v') :: rest, k, v =>
    if k' = k then (k, v) :: rest
    else if stringLess k k' then (k, v) :: (k', v') :: rest
    else (k', v') :: assign rest k v

/-- Member `erase(key)` of the containers: drops the entry of key `k`. -/
def erase (m : ItemMap) (k : String) : ItemMap :=
  m.filter (fun e => decide (e.1 ≠ k))

end StorageManager

/-- The class `StorageManager`: its two private indexes. -/
structure StorageManager where
  itemById : StorageManager.ItemMap
  itemByDescription : StorageManager.ItemMap
  deriving DecidableEq, Repr

namespace StorageManager

/-- What a call returns or throws. -/
inductive Result (α : Type) where
  | returned (value : α)
  | threw (ex : Exception)
  deriving DecidableEq, Repr

/-- The effect of one member function call. -/
structure Outcome (α : Type) where
  result : Result α
  state : StorageManager
  output : List String
  deriving DecidableEq, Repr

/-- A default-constructed manager: both indexes empty. -/
def empty : StorageManager := { itemById := [], itemByDescription := [] }

/-- The method `StorageManager::addItem`. -/
def addItem (s : StorageManager) (item : StoredItem) : Outcome Unit :=
  if count s.itemById item.id > 0 then
    { result := .threw (.DuplicateItemException ("Item with ID " ++ item.id ++ " already exists!")),
      state := s,
      output := [] }
  else
    { result := .returned (),
      state :=
        { itemById := assign s.itemById item.id item,
          itemByDescription := assign s.itemByDescription item.description item },
      output := ["Adding item: " ++ item.id ++ " - " ++ item.description] }

/-- The method `StorageManager::findById` (a `const` member: the manager is
handed back as it was received). -/
def findById (s : StorageManager) (id : String) : Outcome StoredItem :=
  match find s.itemById id with
  | none =>
    { result := .threw (.ItemNotFoundException ("Item with ID " ++ id ++ " not found!")),
      state := s,
      output := [] }
  | some item => { result := .returned item, state := s, output := [] }

/-- The method `StorageManager::removeItem`. -/
def removeItem (s : StorageManager) (id : String) : Outcome Unit :=
  match find s.itemById id with
  | none =>
    { result := .threw (.ItemNotFoundException ("Item with ID " ++ id ++ " not found!")),
      state := s,
      output := [] }
  | some item =>
    { result := .returned (),
      state :=
        { itemById := erase s.itemById id,
          itemByDescription := erase s.itemByDescription item.description },
      output := ["Removed item with ID " ++ id] }

/-- The sequence the loop of `listItemsByDescription` walks through: for each
entry of `itemByDescription`, in iteration order, the description and the
location of the item it holds. -/
def listedEntries (s : StorageManager) : List (String × String) :=
  s.itemByDescription.map (fun e => (e.2.description, e.2.location))

/-- The states a manager can be in: default-constructed, then any sequence of
`addItem` and `removeItem` calls (failed calls included). -/
inductive Reachable : StorageManager → Prop
  | init : Reachable empty
  | add (s : StorageManager) (item : StoredItem) :
      Reachable s → Reachable (addItem s item).state
  | remove (s : StorageManager) (id : String) :
      Reachable s → Reachable (removeItem s id).state

/-- Whether a record is stored under `id` in the primary index. -/
def isStored (s : StorageManager) (id : String) : Bool :=
  (find s.itemById id).isSome

/-- The first record `main` creates. -/
def item1 : StoredItem := ⟨"ITEM001", "LED Light", "Aisle 3, Shelf 1"⟩

/-- The second record `main` creates. -/
def item2 : StoredItem := ⟨"ITEM002", "Fan Motor", "Aisle 2, Shelf 5"⟩

/-- A record with the description of `item1` under another id. -/
def item3 : StoredItem := ⟨"ITEM003", "LED Light", "Aisle 7, Shelf 2"⟩

/-- The manager after `item1` and then `item3` were added to an empty one. -/
def sharedDescription : StorageManager :=
  (addItem (addItem empty item1).state item3).state

/-- The ids stored in the primary index. -/
def primaryIds (s : StorageManager) : List String :=
  s.itemById.map (fun e => e.1)

/-- The ids of the records held in the secondary index. -/
def secondaryIds (s : StorageManager) : List String :=
  s.itemByDescription.map (fun e => e.2.id)

/-- The states reached from a default-constructed manager by `addItem` and
`removeItem` calls of which no successful `addItem` is given a record whose
description is that of a record stored at the time of the call. -/
inductive ReachableDistinct : StorageManager → Prop
  | init : ReachableDistinct empty
  | add (s : StorageManager) (item : StoredItem) :
      ReachableDistinct s →
      (isStored s item.id = true ∨
        ∀ e ∈ s.itemById, e.2.description ≠ item.description) →
      ReachableDistinct (addItem s item).state
  | remove (s : StorageManager) (id : String) :
      ReachableDistinct s → ReachableDistinct (removeItem s id).state

/-- A sequence of strings in which no element is followed, anywhere later, by
a smaller one under `operator<`. -/
def NonDecreasing (l : List String) : Prop :=
  List.Pairwise (fun a b => stringLess b a = false) l

/-- Keys strictly ascending: the representation invariant of the containers. -/
def Sorted (m : ItemMap) : Prop :=
  List.Pairwise (fun a b => stringLess a.1 b.1 = true) m

/-- What holds of every reachable manager: both containers are in key order,
every primary entry is keyed by its record's id, and every secondary entry is
keyed by its record's description and holds a record of the primary index. -/
structure WellFormed (s : StorageManager) : Prop where
  sortedById : Sorted s.itemById
  sortedByDescription : Sorted s.itemByDescription
  idKey : ∀ k v, find s.itemById k = some v → v.id = k
  descKey : ∀ d v, find s.itemByDescription d = some v →
    v.description = d ∧ find s.itemById v.id = some v

/-! ## The key order -/

theorem lexLess_irrefl (a : List Char) : lexLess a a = false := by
  induction a with
  | nil => rfl
  | cons c cs ih => simp [lexLess, ih]

theorem lexLess_trans : ∀ (a b c : List Char),
    lexLess a b = true → lexLess b c = true → lexLess a c = true
  | [], [], _, h, _ => by simp [lexLess] at h
  | [], _ :: _, [], _, h => by simp [lexLess] at h
  | [], _ :: _, _ :: _, _, _ => by simp [lexLess]
  | _ :: _, [], _, h, _ => by simp [lexLess] at h
  | _ :: _, _ :: _, [], _, h => by simp [lexLess] at h
  | x :: xs, y :: ys, z :: zs, h1, h2 => by
    simp only [lexLess] at h1 h2 ⊢
    by_cases hxy : x.toNat < y.toNat
    · by_cases hyz : y.toNat < z.toNat
      · have : x.toNat < z.toNat := by omega
        simp [this]
      · by_cases hzy : z.toNat < y.toNat
        · simp [hyz, hzy] at h2
        · have : x.toNat < z.toNat := by omega
          simp [this]
    · by_cases hyx : y.toNat < x.toNat
      · simp [hxy, hyx] at h1
      · simp only [hxy, hyx, if_false] at h1
        by_cases hyz : y.toNat < z.toNat
        · have : x.toNat < z.toNat := by omega
          simp [this]
        · by_cases hzy : z.toNat < y.toNat
          · simp [hyz, hzy] at h2
          · simp only [hyz, hzy, if_false] at h2
            have h3 : ¬ x.toNat < z.toNat := by omega
            have h4 : ¬ z.toNat < x.toNat := by omega
            simp only [h3, h4, if_false]
            exact lexLess_trans xs ys zs h1 h2

theorem char_eq_of_toNat_eq {a b : Char} (h : a.toNat = b.toNat) : a = b := by
  apply Char.ext
  apply UInt32.eq_of_toBitVec_eq
  apply BitVec.eq_of_toNat_eq
  exact h

theorem lexLess_total : ∀ (a b : List Char),
    lexLess a b = false → lexLess b a = false → a = b
  | [], [], _, _ => rfl
  | [], _ :: _, h, _ => by simp [lexLess] at h
  | _ :: _, [], _, h => by simp [lexLess] at h
  | x :: xs, y :: ys, h1, h2 => by
    simp only [lexLess] at h1 h2
    by_cases hxy : x.toNat < y.toNat
    · simp [hxy] at h1
    · by_cases hyx : y.toNat < x.toNat
      · simp [hyx] at h2
      · simp only [hxy, hyx, if_false] at h1 h2
        have hc : x = y := char_eq_of_toNat_eq (by omega)
        rw [hc, lexLess_total xs ys h1 h2]

theorem stringLess_irrefl (a : String) : stringLess a a = false :=
  lexLess_irrefl a.data

theorem stringLess_trans {a b c : String}
    (h1 : stringLess a b = true) (h2 : stringLess b c = true) : stringLess a c = true :=
  lexLess_trans a.data b.data c.data h1 h2

theorem stringLess_total {a b : String}
    (h1 : stringLess a b = false) (h2 : stringLess b a = false) : a = b := by
  cases a; cases b
  simp only [stringLess] at h1 h2
  rw [lexLess_total _ _ h1 h2]

theorem stringLess_ne {a b : String} (h : stringLess a b = true) : a ≠ b := by
  intro e
  rw [e, stringLess_irrefl] at h
  exact Bool.false_ne_true h

/-! ## The containers -/

theorem find_assign (m : ItemMap) (k : String) (v : StoredItem) (q : String) :
    find (assign m k v) q = if k = q then some v else find m q := by
  induction m with
  | nil => simp [assign, find]
  | cons e rest ih =>
    obtain ⟨k', v'⟩ := e
    simp only [assign]
    by_cases h1 : k' = k
    · subst h1
      simp only [if_true, find]
      by_cases h3 : k' = q
      · simp [h3]
      · simp [h3]
    · simp only [h1, if_false]
      by_cases h2 : stringLess k k' = true
      · simp only [h2, if_true, find]
      · rw [Bool.not_eq_true] at h2
        simp only [h2, Bool.false_eq_true, if_false, find, ih]
        by_cases h3 : k = q
        · subst h3
          simp [h1]
        · simp [h3]

theorem find_erase (m : ItemMap) (k q : String) :
    find (erase m k) q = if k = q then none else find m q := by
  induction m with
  | nil => simp [erase, find]
  | cons e rest ih =>
    obtain ⟨k', v'⟩ := e
    simp only [erase] at ih
    by_cases h1 : k' = k
    · subst h1
      simp only [erase, List.filter, ne_eq, not_true_eq_false, decide_False, ih, find]
      by_cases h3 : k' = q
      · simp [h3]
      · simp [h3]
    · simp only [erase, List.filter, ne_eq, h1, not_false_eq_true, decide_True, find, ih]
      by_cases h3 : k = q
      · subst h3
        simp [h1]
      · simp [h3]

theorem mem_assign {m : ItemMap} {k : String} {v : StoredItem} {e : String × StoredItem}
    (h : e ∈ assign m k v) : e = (k, v) ∨ e ∈ m := by
  induction m with
  | nil =>
    simp only [assign, List.mem_singleton] at h
    exact Or.inl h
  | cons e' rest ih =>
    obtain ⟨k', v'⟩ := e'
    simp only [assign] at h
    by_cases h1 : k' = k
    · simp only [h1, if_true, List.mem_cons] at h
      rcases h with h | h
      · exact Or.inl h
      · exact Or.inr (List.mem_cons_of_mem _ h)
    · simp only [h1, if_false] at h
      by_cases h2 : stringLess k k' = true
      · simp only [h2, if_true, List.mem_cons] at h
        rcases h with h | h | h
        · exact Or.inl h
        · exact Or.inr (by simp [h])
        · exact Or.inr (List.mem_cons_of_mem _ h)
      · rw [Bool.not_eq_true] at h2
        simp only [h2, Bool.false_eq_true, if_false, List.mem_cons] at h
        rcases h with h | h
        · exact Or.inr (by simp [h])
        · rcases ih h with h | h
          · exact Or.inl h
          · exact Or.inr (List.mem_cons_of_mem _ h)

theorem sorted_assign {m : ItemMap} (hm : Sorted m) (k : String) (v : StoredItem) :
    Sorted (assign m k v) := by
  induction m with
  | nil => simp [assign, Sorted]
  | cons e' rest ih =>
    obtain ⟨k', v'⟩ := e'
    have hm' := List.pairwise_cons.mp hm
    simp only [assign]
    by_cases h1 : k' = k
    · subst h1
      simp only [if_true]
      exact List.pairwise_cons.mpr ⟨hm'.1, hm'.2⟩
    · simp only [h1, if_false]
      by_cases h2 : stringLess k k' = true
      · simp only [h2, if_true]
        refine List.pairwise_cons.mpr ⟨?_, hm⟩
        intro e he
        rcases List.mem_cons.mp he with he | he
        · subst he
          exact h2
        · exact stringLess_trans h2 (hm'.1 e he)
      · rw [Bool.not_eq_true] at h2
        simp only [h2, Bool.false_eq_true, if_false]
        refine List.pairwise_cons.mpr ⟨?_, ih hm'.2⟩
        intro e he
        rcases mem_assign he with he | he
        · subst he
          cases h3 : stringLess k' k with
          | true => rfl
          | false =>
            exact absurd (stringLess_total h3 h2) h1
        · exact hm'.1 e he

theorem sorted_erase {m : ItemMap} (hm : Sorted m) (k : String) : Sorted (erase m k) :=
  List.Pairwise.filter _ hm

theorem find_eq_none_of_less {m : ItemMap} {k : String}
    (h : ∀ e ∈ m, stringLess k e.1 = true) : find m k = none := by
  induction m with
  | nil => rfl
  | cons e rest ih =>
    obtain ⟨k', v'⟩ := e
    have h1 : k' ≠ k := fun e => stringLess_ne (h (k', v') (List.mem_cons_self _ _)) e.symm
    simp only [find, h1, if_false]
    exact ih (fun e he => h e (List.mem_cons_of_mem _ he))

theorem mem_of_find {m : ItemMap} {k : String} {v : StoredItem}
    (h : find m k = some v) : (k, v) ∈ m := by
  induction m with
  | nil => simp [find] at h
  | cons e rest ih =>
    obtain ⟨k', v'⟩ := e
    simp only [find] at h
    by_cases h1 : k' = k
    · simp only [h1, if_true, Option.some.injEq] at h
      simp [h1, h]
    · simp only [h1, if_false] at h
      exact List.mem_cons_of_mem _ (ih h)

theorem find_of_mem {m : ItemMap} (hm : Sorted m) {k : String} {v : StoredItem}
    (h : (k, v) ∈ m) : find m k = some v := by
  induction m with
  | nil => simp at h
  | cons e rest ih =>
    obtain ⟨k', v'⟩ := e
    have hm' := List.pairwise_cons.mp hm
    rcases List.mem_cons.mp h with h | h
    · simp only [Prod.mk.injEq] at h
      simp [find, h.1, h.2]
    · have h1 : k' ≠ k := stringLess_ne (hm'.1 (k, v) h)
      simp only [find, h1, if_false]
      exact ih hm'.2 h

theorem mem_iff_find {m : ItemMap} (hm : Sorted m) (k : String) (v : StoredItem) :
    (k, v) ∈ m ↔ find m k = some v :=
  ⟨find_of_mem hm, mem_of_find⟩

/-! ## The operations, case by case -/

theorem addItem_stored {s : StorageManager} {item : StoredItem}
    (h : isStored s item.id = true) :
    addItem s item =
      { result := .threw (.DuplicateItemException
          ("Item with ID " ++ item.id ++ " already exists!")),
        state := s, output := [] } := by
  unfold isStored at h
  cases hf : find s.itemById item.id with
  | none => simp [hf] at h
  | some v => simp [addItem, count, hf]

theorem addItem_fresh {s : StorageManager} {item : StoredItem}
    (h : isStored s item.id = false) :
    addItem s item =
      { result := .returned (),
        state :=
          { itemById := assign s.itemById item.id item,
            itemByDescription := assign s.itemByDescription item.description item },
        output := ["Adding item: " ++ item.id ++ " - " ++ item.description] } := by
  unfold isStored at h
  cases hf : find s.itemById item.id with
  | none => simp [addItem, count, hf]
  | some v => simp [hf] at h

theorem removeItem_stored {s : StorageManager} {id : String} {v : StoredItem}
    (h : find s.itemById id = some v) :
    removeItem s id =
      { result := .returned (),
        state :=
          { itemById := erase s.itemById id,
            itemByDescription := erase s.itemByDescription v.description },
        output := ["Removed item with ID " ++ id] } := by
  simp [removeItem, h]

theorem removeItem_missing {s : StorageManager} {id : String}
    (h : find s.itemById id = none) :
    removeItem s id =
      { result := .threw (.ItemNotFoundException ("Item with ID " ++ id ++ " not found!")),
        state := s, output := [] } := by
  simp [removeItem, h]

theorem isStored_eq_false_iff {s : StorageManager} {id : String} :
    isStored s id = false ↔ find s.itemById id = none := by
  unfold isStored
  cases find s.itemById id <;> simp

theorem isStored_eq_true_iff {s : StorageManager} {id : String} :
    isStored s id = true ↔ ∃ v, find s.itemById id = some v := by
  unfold isStored
  cases find s.itemById id <;> simp

/-! ## What every reachable manager satisfies -/

theorem wellFormed_empty : WellFormed empty :=
  { sortedById := List.Pairwise.nil
    sortedByDescription := List.Pairwise.nil
    idKey := by intro k v h; simp [empty, find] at h
    descKey := by intro d v h; simp [empty, find] at h }

theorem wellFormed_addItem {s : StorageManager} (hs : WellFormed s) (item : StoredItem) :
    WellFormed (addItem s item).state := by
  cases hst : isStored s item.id with
  | true =>
    rw [addItem_stored hst]
    exact hs
  | false =>
    rw [addItem_fresh hst]
    have hnone := isStored_eq_false_iff.mp hst
    refine ⟨sorted_assign hs.sortedById _ _, sorted_assign hs.sortedByDescription _ _, ?_, ?_⟩
    · intro k v h
      simp only [find_assign] at h
      by_cases hk : item.id = k
      · simp only [hk, if_true, Option.some.injEq] at h
        rw [← h]
        exact hk
      · simp only [hk, if_false] at h
        exact hs.idKey k v h
    · intro d v h
      simp only [find_assign] at h ⊢
      by_cases hd : item.description = d
      · simp only [hd, if_true, Option.some.injEq] at h
        subst h
        exact ⟨hd, by simp⟩
      · simp only [hd, if_false] at h
        obtain ⟨h1, h2⟩ := hs.descKey d v h
        refine ⟨h1, ?_⟩
        have hne : item.id ≠ v.id := by
          intro e
          rw [e, h2] at hnone
          exact Option.noConfusion hnone
        simp only [hne, if_false]
        exact h2

theorem wellFormed_removeItem {s : StorageManager} (hs : WellFormed s) (id : String) :
    WellFormed (removeItem s id).state := by
  cases hf : find s.itemById id with
  | none =>
    rw [removeItem_missing hf]
    exact hs
  | some v0 =>
    rw [removeItem_stored hf]
    refine ⟨sorted_erase hs.sortedById _, sorted_erase hs.sortedByDescription _, ?_, ?_⟩
    · intro k v h
      simp only [find_erase] at h
      by_cases hk : id = k
      · simp [hk] at h
      · simp only [hk, if_false] at h
        exact hs.idKey k v h
    · intro d v h
      simp only [find_erase] at h ⊢
      by_cases hd : v0.description = d
      · simp [hd] at h
      · simp only [hd, if_false] at h
        obtain ⟨h1, h2⟩ := hs.descKey d v h
        refine ⟨h1, ?_⟩
        have hne : id ≠ v.id := by
          intro e
          rw [← e, hf] at h2
          have hv : v0 = v := Option.some.inj h2
          exact hd (by rw [hv, h1])
        simp only [hne, if_false]
        exact h2

theorem wellFormed_of_reachable {s : StorageManager} (h : Reachable s) : WellFormed s := by
  induction h with
  | init => exact wellFormed_empty
  | add s item _ ih => exact wellFormed_addItem ih item
  | remove s id _ ih => exact wellFormed_removeItem ih id

/-! ## Rejected and accepted calls -/

/-- C1: adding a record whose id is already stored throws
`DuplicateItemException` and leaves the primary and the secondary index as
they were. -/
theorem addItem_duplicate_rejected (s : StorageManager) (r : StoredItem)
    (h : isStored s r.id = true) :
    (addItem s r).result =
        .threw (.DuplicateItemException ("Item with ID " ++ r.id ++ " already exists!")) ∧
      (addItem s r).state.itemById = s.itemById ∧
      (addItem s r).state.itemByDescription = s.itemByDescription := by
  rw [addItem_stored h]
  exact ⟨rfl, rfl, rfl⟩

theorem addItem_duplicate_rejected_witness :
    isStored (addItem (addItem empty item1).state item2).state item1.id = true ∧
      ((addItem (addItem (addItem empty item1).state item2).state item1).result =
          .threw (.DuplicateItemException
            ("Item with ID " ++ item1.id ++ " already exists!")) ∧
        (addItem (addItem (addItem empty item1).state item2).state item1).state.itemById =
          (addItem (addItem empty item1).state item2).state.itemById ∧
        (addItem (addItem (addItem empty item1).state item2).state
            item1).state.itemByDescription =
          (addItem (addItem empty item1).state item2).state.itemByDescription) :=
  ⟨by decide, addItem_duplicate_rejected _ item1 (by decide)⟩

/-- C2: adding a record whose id is not stored returns normally, and a
following `findById` of that id returns the very record that was added. -/
theorem addItem_then_findById (s : StorageManager) (r : StoredItem)
    (h : isStored s r.id = false) :
    (addItem s r).result = .returned () ∧
      (findById (addItem s r).state r.id).result = .returned r := by
  rw [addItem_fresh h]
  refine ⟨rfl, ?_⟩
  simp [findById, find_assign]

theorem addItem_then_findById_witness :
    isStored (addItem empty item1).state item2.id = false ∧
      ((addItem (addItem empty item1).state item2).result = .returned () ∧
        (findById (addItem (addItem empty item1).state item2).state item2.id).result =
          .returned item2) :=
  ⟨by decide, addItem_then_findById _ item2 (by decide)⟩

/-! ## The two indexes against each other -/

theorem reachable_of_reachableDistinct {s : StorageManager} (h : ReachableDistinct s) :
    Reachable s := by
  induction h with
  | init => exact Reachable.init
  | add s item _ _ ih => exact Reachable.add s item ih
  | remove s id _ ih => exact Reachable.remove s id ih

theorem primary_in_secondary_of_reachableDistinct {s : StorageManager}
    (h : ReachableDistinct s) :
    ∀ k v, find s.itemById k = some v → find s.itemByDescription v.description = some v := by
  induction h with
  | init => intro k v h; simp [empty, find] at h
  | add s item hr hcond ih =>
    cases hst : isStored s item.id with
    | true =>
      rw [addItem_stored hst]
      exact ih
    | false =>
      rw [addItem_fresh hst]
      have hcond' : ∀ e ∈ s.itemById, e.2.description ≠ item.description := by
        rcases hcond with hc | hc
        · rw [hst] at hc
          exact absurd hc Bool.false_ne_true
        · exact hc
      intro k v h
      simp only [find_assign] at h ⊢
      by_cases hk : item.id = k
      · simp only [hk, if_true, Option.some.injEq] at h
        subst h
        simp
      · simp only [hk, if_false] at h
        have hne : item.description ≠ v.description :=
          fun e => hcond' (k, v) (mem_of_find h) e.symm
        simp only [hne, if_false]
        exact ih k v h
  | remove s id hr ih =>
    have hwf := wellFormed_of_reachable (reachable_of_reachableDistinct hr)
    cases hf : find s.itemById id with
    | none =>
      rw [removeItem_missing hf]
      exact ih
    | some v0 =>
      rw [removeItem_stored hf]
      intro k v h
      simp only [find_erase] at h ⊢
      by_cases hk : id = k
      · simp [hk] at h
      · simp only [hk, if_false] at h
        have hne : v0.description ≠ v.description := by
          intro e
          have h1 := ih id v0 hf
          have h2 := ih k v h
          rw [e, h2] at h1
          have hv : v = v0 := Option.some.inj h1
          have h3 := hwf.idKey id v0 hf
          have h4 := hwf.idKey k v h
          exact hk (by rw [← h3, ← h4, hv])
        simp only [hne, if_false]
        exact ih k v h

/-- C3, refuted as stated: after two records with the same description were
added, the id of the first is in the primary index but belongs to no record of
the secondary index. -/
theorem index_ids_differ_counterexample :
    Reachable sharedDescription ∧
      "ITEM001" ∈ primaryIds sharedDescription ∧
      "ITEM001" ∉ secondaryIds sharedDescription :=
  ⟨Reachable.add _ item3 (Reachable.add _ item1 Reachable.init), by decide, by decide⟩

/-- C3, amended: in every state reached by calls of which no successful add
repeats the description of a stored record, the primary index and the records
of the secondary index have the same ids, every secondary entry is keyed by
its record's description, and every primary record is held in the secondary
index under its description. -/
theorem indexes_consistent_of_reachableDistinct (s : StorageManager)
    (h : ReachableDistinct s) :
    (∀ id, id ∈ primaryIds s ↔ id ∈ secondaryIds s) ∧
      (∀ e ∈ s.itemByDescription, e.1 = e.2.description) ∧
      (∀ e ∈ s.itemById, (e.2.description, e.2) ∈ s.itemByDescription) := by
  have hwf := wellFormed_of_reachable (reachable_of_reachableDistinct h)
  have hps := primary_in_secondary_of_reachableDistinct h
  refine ⟨?_, ?_, ?_⟩
  · intro id
    simp only [primaryIds, secondaryIds, List.mem_map]
    constructor
    · rintro ⟨⟨k, v⟩, he, hk⟩
      simp only at hk
      subst hk
      have hf := find_of_mem hwf.sortedById he
      refine ⟨(v.description, v), mem_of_find (hps k v hf), ?_⟩
      exact hwf.idKey k v hf
    · rintro ⟨⟨d, v⟩, he, hk⟩
      simp only at hk
      have hf := find_of_mem hwf.sortedByDescription he
      have h2 := (hwf.descKey d v hf).2
      rw [hk] at h2
      exact ⟨(id, v), mem_of_find h2, rfl⟩
  · rintro ⟨d, v⟩ he
    exact (hwf.descKey d v (find_of_mem hwf.sortedByDescription he)).1.symm
  · rintro ⟨k, v⟩ he
    exact mem_of_find (hps k v (find_of_mem hwf.sortedById he))

theorem indexes_consistent_of_reachableDistinct_witness :
    ReachableDistinct (addItem (addItem empty item1).state item2).state ∧
      ((∀ id, id ∈ primaryIds (addItem (addItem empty item1).state item2).state ↔
          id ∈ secondaryIds (addItem (addItem empty item1).state item2).state) ∧
        (∀ e ∈ (addItem (addItem empty item1).state item2).state.itemByDescription,
          e.1 = e.2.description) ∧
        (∀ e ∈ (addItem (addItem empty item1).state item2).state.itemById,
          (e.2.description, e.2) ∈
            (addItem (addItem empty item1).state item2).state.itemByDescription)) :=
  ⟨ReachableDistinct.add _ item2
      (ReachableDistinct.add _ item1 ReachableDistinct.init (Or.inr (by decide)))
      (Or.inr (by decide)),
    indexes_consistent_of_reachableDistinct _
      (ReachableDistinct.add _ item2
        (ReachableDistinct.add _ item1 ReachableDistinct.init (Or.inr (by decide)))
        (Or.inr (by decide)))⟩

/-! ## Records that share a description -/

/-- C4, refuted as stated: `item1` and `item3` have distinct ids and the same
description, both adds return normally, and afterwards the secondary index
holds no entry for `item1` and the listing does not show it. -/
theorem shared_description_overwrites_counterexample :
    Reachable empty ∧ item1.id ≠ item3.id ∧
      isStored empty item1.id = false ∧ isStored empty item3.id = false ∧
      item1.description = item3.description ∧
      (addItem empty item1).result = .returned () ∧
      (addItem (addItem empty item1).state item3).result = .returned () ∧
      (item1.description, item1) ∉
        (addItem (addItem empty item1).state item3).state.itemByDescription ∧
      (item1.description, item1.location) ∉
        listedEntries (addItem (addItem empty item1).state item3).state :=
  ⟨Reachable.init, by decide, by decide, by decide, by decide, by decide, by decide,
    by decide, by decide⟩

/-- C4, amended: when two records with distinct ids, neither stored, and the
same description are added one after the other, both adds return normally and
both records stay retrievable by id, but the secondary index holds one entry
under that description, the one of the record added last: the listing shows
the second record and the entry of the first is overwritten. -/
theorem shared_description_keeps_last (s : StorageManager) (a b : StoredItem)
    (hs : Reachable s) (hid : a.id ≠ b.id)
    (ha : isStored s a.id = false) (hb : isStored s b.id = false)
    (hd : a.description = b.description) :
    (addItem s a).result = .returned () ∧
      (addItem (addItem s a).state b).result = .returned () ∧
      (b.description, b) ∈ (addItem (addItem s a).state b).state.itemByDescription ∧
      (∀ v, (b.description, v) ∈ (addItem (addItem s a).state b).state.itemByDescription →
        v = b) ∧
      (a.description, a) ∉ (addItem (addItem s a).state b).state.itemByDescription ∧
      (b.description, b.location) ∈ listedEntries (addItem (addItem s a).state b).state ∧
      (findById (addItem (addItem s a).state b).state a.id).result = .returned a ∧
      (findById (addItem (addItem s a).state b).state b.id).result = .returned b := by
  have hwf2 : WellFormed (addItem (addItem s a).state b).state :=
    wellFormed_addItem (wellFormed_addItem (wellFormed_of_reachable hs) a) b
  have hb1 : isStored (addItem s a).state b.id = false := by
    rw [addItem_fresh ha]
    rw [isStored_eq_false_iff] at hb ⊢
    simp only [find_assign, hid, if_false]
    exact hb
  have hfind : find (addItem (addItem s a).state b).state.itemByDescription b.description
      = some b := by
    rw [addItem_fresh hb1]
    simp [find_assign]
  have hmem := mem_of_find hfind
  refine ⟨by rw [addItem_fresh ha], by rw [addItem_fresh hb1], hmem, ?_, ?_, ?_, ?_, ?_⟩
  · intro v hv
    have h1 := find_of_mem hwf2.sortedByDescription hv
    rw [hfind] at h1
    exact (Option.some.inj h1).symm
  · intro hmemA
    rw [hd] at hmemA
    have h1 := find_of_mem hwf2.sortedByDescription hmemA
    rw [hfind] at h1
    have hab : b = a := Option.some.inj h1
    exact hid (by rw [hab])
  · simp only [listedEntries, List.mem_map]
    exact ⟨(b.description, b), hmem, rfl⟩
  · rw [addItem_fresh hb1, addItem_fresh ha]
    have hne : ¬ b.id = a.id := fun e => hid e.symm
    simp [findById, find_assign, hne]
  · rw [addItem_fresh hb1]
    simp [findById, find_assign]

theorem shared_description_keeps_last_witness :
    Reachable (addItem empty item2).state ∧ item1.id ≠ item3.id ∧
      isStored (addItem empty item2).state item1.id = false ∧
      isStored (addItem empty item2).state item3.id = false ∧
      item1.description = item3.description ∧
      ((addItem (addItem empty item2).state item1).result = .returned () ∧
        (addItem (addItem (addItem empty item2).state item1).state item3).result
          = .returned () ∧
        (item3.description, item3) ∈
          (addItem (addItem (addItem empty item2).state item1).state
            item3).state.itemByDescription ∧
        (∀ v, (item3.description, v) ∈
          (addItem (addItem (addItem empty item2).state item1).state
            item3).state.itemByDescription → v = item3) ∧
        (item1.description, item1) ∉
          (addItem (addItem (addItem empty item2).state item1).state
            item3).state.itemByDescription ∧
        (item3.description, item3.location) ∈
          listedEntries (addItem (addItem (addItem empty item2).state item1).state
            item3).state ∧
        (findById (addItem (addItem (addItem empty item2).state item1).state
          item3).state item1.id).result = .returned item1 ∧
        (findById (addItem (addItem (addItem empty item2).state item1).state
          item3).state item3.id).result = .returned item3) :=
  ⟨Reachable.add _ item2 Reachable.init, by decide, by decide, by decide, by decide,
    shared_description_keeps_last _ item1 item3 (Reachable.add _ item2 Reachable.init)
      (by decide) (by decide) (by decide) (by decide)⟩

/-- C5, refuted as stated: with `item1` and `item3` stored under one
description, removing `item1` returns normally and `item3`, still stored and
listed before the call, is no longer listed after it. -/
theorem removeItem_drops_other_record_counterexample :
    Reachable sharedDescription ∧
      isStored sharedDescription "ITEM001" = true ∧
      (removeItem sharedDescription "ITEM001").result = .returned () ∧
      isStored (removeItem sharedDescription "ITEM001").state "ITEM003" = true ∧
      (item3.description, item3) ∈ sharedDescription.itemByDescription ∧
      (item3.description, item3.location) ∈ listedEntries sharedDescription ∧
      (item3.description, item3) ∉
        (removeItem sharedDescription "ITEM001").state.itemByDescription ∧
      (item3.description, item3.location) ∉
        listedEntries (removeItem sharedDescription "ITEM001").state :=
  ⟨Reachable.add _ item3 (Reachable.add _ item1 Reachable.init), by decide, by decide,
    by decide, by decide, by decide, by decide, by decide⟩

/-- C5, amended: removing a stored id returns normally, takes exactly the
entries keyed by that id out of the primary index, and takes exactly the entry
keyed by the removed record's description out of the secondary index; every
listed record whose description differs from the removed record's is still
listed after the call. -/
theorem removeItem_erases_by_key (s : StorageManager) (id : String) (v : StoredItem)
    (hs : Reachable s) (h : find s.itemById id = some v) :
    (removeItem s id).result = .returned () ∧
      (id, v) ∈ s.itemById ∧
      (∀ e, e ∈ (removeItem s id).state.itemById ↔ e ∈ s.itemById ∧ e ≠ (id, v)) ∧
      (∀ e, e ∈ (removeItem s id).state.itemByDescription ↔
        e ∈ s.itemByDescription ∧ e.1 ≠ v.description) ∧
      (∀ e ∈ s.itemByDescription, e.2.description ≠ v.description →
        (e.2.description, e.2.location) ∈ listedEntries (removeItem s id).state) := by
  have hwf := wellFormed_of_reachable hs
  rw [removeItem_stored h]
  refine ⟨rfl, mem_of_find h, ?_, ?_, ?_⟩
  · rintro ⟨k, w⟩
    simp only [erase, List.mem_filter, ne_eq, decide_eq_true_eq, Prod.mk.injEq, not_and]
    constructor
    · rintro ⟨hm, hk⟩
      exact ⟨hm, fun e => absurd e hk⟩
    · rintro ⟨hm, hk⟩
      refine ⟨hm, fun e => ?_⟩
      have h1 := find_of_mem hwf.sortedById hm
      rw [e, h] at h1
      exact hk e (Option.some.inj h1).symm
  · intro e
    simp only [erase, List.mem_filter, ne_eq, decide_eq_true_eq]
  · rintro ⟨d, w⟩ he hne
    simp only [listedEntries, List.mem_map]
    refine ⟨(d, w), ?_, rfl⟩
    simp only [erase, List.mem_filter, ne_eq, decide_eq_true_eq]
    refine ⟨he, ?_⟩
    have hkey := (hwf.descKey d w (find_of_mem hwf.sortedByDescription he)).1
    rw [← hkey]
    exact hne

theorem removeItem_erases_by_key_witness :
    Reachable (addItem (addItem empty item1).state item2).state ∧
      find (addItem (addItem empty item1).state item2).state.itemById "ITEM001"
        = some item1 ∧
      ((removeItem (addItem (addItem empty item1).state item2).state "ITEM001").result
          = .returned () ∧
        ("ITEM001", item1) ∈ (addItem (addItem empty item1).state item2).state.itemById ∧
        (∀ e, e ∈ (removeItem (addItem (addItem empty item1).state item2).state
            "ITEM001").state.itemById ↔
          e ∈ (addItem (addItem empty item1).state item2).state.itemById ∧
            e ≠ ("ITEM001", item1)) ∧
        (∀ e, e ∈ (removeItem (addItem (addItem empty item1).state item2).state
            "ITEM001").state.itemByDescription ↔
          e ∈ (addItem (addItem empty item1).state item2).state.itemByDescription ∧
            e.1 ≠ item1.description) ∧
        (∀ e ∈ (addItem (addItem empty item1).state item2).state.itemByDescription,
          e.2.description ≠ item1.description →
          (e.2.description, e.2.location) ∈
            listedEntries (removeItem (addItem (addItem empty item1).state item2).state
              "ITEM001").state)) :=
  ⟨Reachable.add _ item2 (Reachable.add _ item1 Reachable.init), by decide,
    removeItem_erases_by_key _ "ITEM001" item1
      (Reachable.add _ item2 (Reachable.add _ item1 Reachable.init)) (by decide)⟩

/-! ## Removal and lookup -/

/-- C6: after a stored id was removed, `findById` of it throws
`ItemNotFoundException`, and so does a second `removeItem`, which leaves both
indexes as they were. -/
theorem removeItem_then_not_found (s : StorageManager) (id : String)
    (h : isStored s id = true) :
    (removeItem s id).result = .returned () ∧
      (findById (removeItem s id).state id).result =
        .threw (.ItemNotFoundException ("Item with ID " ++ id ++ " not found!")) ∧
      (removeItem (removeItem s id).state id).result =
        .threw (.ItemNotFoundException ("Item with ID " ++ id ++ " not found!")) ∧
      (removeItem (removeItem s id).state id).state.itemById =
        (removeItem s id).state.itemById ∧
      (removeItem (removeItem s id).state id).state.itemByDescription =
        (removeItem s id).state.itemByDescription := by
  obtain ⟨v, hv⟩ := isStored_eq_true_iff.mp h
  have hnone : find (removeItem s id).state.itemById id = none := by
    rw [removeItem_stored hv]
    simp [find_erase]
  refine ⟨by rw [removeItem_stored hv], ?_, ?_, ?_, ?_⟩
  · simp [findById, hnone]
  · rw [removeItem_missing hnone]
  · rw [removeItem_missing hnone]
  · rw [removeItem_missing hnone]

theorem removeItem_then_not_found_witness :
    isStored (addItem (addItem empty item1).state item2).state "ITEM002" = true ∧
      ((removeItem (addItem (addItem empty item1).state item2).state "ITEM002").result
          = .returned () ∧
        (findById (removeItem (addItem (addItem empty item1).state item2).state
            "ITEM002").state "ITEM002").result =
          .threw (.ItemNotFoundException ("Item with ID " ++ "ITEM002" ++ " not found!")) ∧
        (removeItem (removeItem (addItem (addItem empty item1).state item2).state
            "ITEM002").state "ITEM002").result =
          .threw (.ItemNotFoundException ("Item with ID " ++ "ITEM002" ++ " not found!")) ∧
        (removeItem (removeItem (addItem (addItem empty item1).state item2).state
            "ITEM002").state "ITEM002").state.itemById =
          (removeItem (addItem (addItem empty item1).state item2).state
            "ITEM002").state.itemById ∧
        (removeItem (removeItem (addItem (addItem empty item1).state item2).state
            "ITEM002").state "ITEM002").state.itemByDescription =
          (removeItem (addItem (addItem empty item1).state item2).state
            "ITEM002").state.itemByDescription) :=
  ⟨by decide, removeItem_then_not_found _ "ITEM002" (by decide)⟩

/-- C7: removing an id that is not in the primary index throws
`ItemNotFoundException` and changes neither index. -/
theorem removeItem_missing_rejected (s : StorageManager) (id : String)
    (h : isStored s id = false) :
    (removeItem s id).result =
        .threw (.ItemNotFoundException ("Item with ID " ++ id ++ " not found!")) ∧
      (removeItem s id).state.itemById = s.itemById ∧
      (removeItem s id).state.itemByDescription = s.itemByDescription := by
  rw [removeItem_missing (isStored_eq_false_iff.mp h)]
  exact ⟨rfl, rfl, rfl⟩

theorem removeItem_missing_rejected_witness :
    isStored (addItem (addItem empty item1).state item2).state "ITEM003" = false ∧
      ((removeItem (addItem (addItem empty item1).state item2).state "ITEM003").result =
          .threw (.ItemNotFoundException ("Item with ID " ++ "ITEM003" ++ " not found!")) ∧
        (removeItem (addItem (addItem empty item1).state item2).state
            "ITEM003").state.itemById =
          (addItem (addItem empty item1).state item2).state.itemById ∧
        (removeItem (addItem (addItem empty item1).state item2).state
            "ITEM003").state.itemByDescription =
          (addItem (addItem empty item1).state item2).state.itemByDescription) :=
  ⟨by decide, removeItem_missing_rejected _ "ITEM003" (by decide)⟩

/-- C8: `findById` throws exactly when no record is stored under the id, and
then it throws `ItemNotFoundException`; it returns a record exactly when that
record is the one stored under the id; either way the manager is unchanged. -/
theorem findById_spec (s : StorageManager) (id : String) :
    ((∃ ex, (findById s id).result = .threw ex) ↔ isStored s id = false) ∧
      (isStored s id = false ↔ ∀ v, (id, v) ∉ s.itemById) ∧
      (∀ ex, (findById s id).result = .threw ex →
        ex = .ItemNotFoundException ("Item with ID " ++ id ++ " not found!")) ∧
      (∀ v, (findById s id).result = .returned v ↔ find s.itemById id = some v) ∧
      (findById s id).state = s := by
  have hnone : find s.itemById id = none ↔ ∀ v, (id, v) ∉ s.itemById := by
    constructor
    · intro h v hv
      generalize s.itemById = m at h hv
      induction m with
      | nil => simp at hv
      | cons e rest ih =>
        obtain ⟨k', v'⟩ := e
        simp only [find] at h
        by_cases h1 : k' = id
        · simp [h1] at h
        · simp only [h1, if_false] at h
          rcases List.mem_cons.mp hv with hv | hv
          · simp only [Prod.mk.injEq] at hv
            exact h1 hv.1.symm
          · exact ih h hv
    · intro h
      cases hf : find s.itemById id with
      | none => rfl
      | some v => exact absurd (mem_of_find hf) (h v)
  rw [isStored_eq_false_iff]
  refine ⟨?_, hnone, ?_, ?_, ?_⟩
  all_goals cases hf : find s.itemById id <;> simp [findById, hf]

/-! ## The listing -/

theorem stringLess_asymm {a b : String} (h : stringLess a b = true) :
    stringLess b a = false := by
  cases hba : stringLess b a with
  | false => rfl
  | true =>
    have h1 := stringLess_trans h hba
    rw [stringLess_irrefl] at h1
    exact absurd h1 Bool.false_ne_true

theorem listedEntries_strictly_ascending {s : StorageManager} (hwf : WellFormed s) :
    List.Pairwise (fun p q => stringLess p.1 q.1 = true) (listedEntries s) := by
  unfold listedEntries
  rw [List.pairwise_map]
  refine List.Pairwise.imp_of_mem ?_ hwf.sortedByDescription
  rintro ⟨d1, v1⟩ ⟨d2, v2⟩ h1 h2 hlt
  have e1 := (hwf.descKey d1 v1 (find_of_mem hwf.sortedByDescription h1)).1
  have e2 := (hwf.descKey d2 v2 (find_of_mem hwf.sortedByDescription h2)).1
  simp only at hlt ⊢
  rw [e1, e2]
  exact hlt

/-- C9: in every reachable state the descriptions shown by
`listItemsByDescription`, in the order shown, never decrease under the
lexicographic order of strings. -/
theorem listing_nonDecreasing (s : StorageManager) (hs : Reachable s) :
    NonDecreasing ((listedEntries s).map (fun p => p.1)) := by
  unfold NonDecreasing
  rw [List.pairwise_map]
  exact List.Pairwise.imp (fun h => stringLess_asymm h)
    (listedEntries_strictly_ascending (wellFormed_of_reachable hs))

theorem listing_nonDecreasing_witness :
    Reachable (addItem (addItem empty item1).state item2).state ∧
      listedEntries (addItem (addItem empty item1).state item2).state =
        [("Fan Motor", "Aisle 2, Shelf 5"), ("LED Light", "Aisle 3, Shelf 1")] ∧
      NonDecreasing
        ((listedEntries (addItem (addItem empty item1).state item2).state).map
          (fun p => p.1)) :=
  ⟨Reachable.add _ item2 (Reachable.add _ item1 Reachable.init), by decide,
    listing_nonDecreasing _ (Reachable.add _ item2 (Reachable.add _ item1 Reachable.init))⟩

theorem keys_nodup_of_sorted {m : ItemMap} (hm : Sorted m) :
    (m.map (fun e => e.1)).Nodup := by
  unfold List.Nodup
  rw [List.pairwise_map]
  exact List.Pairwise.imp (fun h => stringLess_ne h) hm

/-- C11: in every reachable state each entry of the primary index is keyed by
the id of the record it holds, and no two entries hold records with the same
id. -/
theorem stored_ids_unique (s : StorageManager) (hs : Reachable s) :
    (∀ e ∈ s.itemById, e.2.id = e.1) ∧
      (s.itemById.map (fun e => e.2.id)).Nodup ∧
      (∀ e1 ∈ s.itemById, ∀ e2 ∈ s.itemById, e1.2.id = e2.2.id → e1 = e2) := by
  have hwf := wellFormed_of_reachable hs
  have hkey : ∀ e ∈ s.itemById, e.2.id = e.1 := by
    rintro ⟨k, v⟩ he
    exact hwf.idKey k v (find_of_mem hwf.sortedById he)
  have hmap : s.itemById.map (fun e => e.2.id) = s.itemById.map (fun e => e.1) :=
    List.map_congr_left hkey
  refine ⟨hkey, ?_, ?_⟩
  · rw [hmap]
    exact keys_nodup_of_sorted hwf.sortedById
  · rintro ⟨k1, v1⟩ h1 ⟨k2, v2⟩ h2 hid
    have e1 := hkey _ h1
    have e2 := hkey _ h2
    simp only at e1 e2 hid
    have hk : k1 = k2 := by rw [← e1, ← e2, hid]
    subst hk
    have f1 := find_of_mem hwf.sortedById h1
    have f2 := find_of_mem hwf.sortedById h2
    rw [f1] at f2
    rw [Option.some.inj f2]

theorem stored_ids_unique_witness :
    Reachable (addItem (addItem (addItem empty item1).state item2).state item3).state ∧
      ((∀ e ∈ (addItem (addItem (addItem empty item1).state item2).state
          item3).state.itemById, e.2.id = e.1) ∧
        ((addItem (addItem (addItem empty item1).state item2).state
          item3).state.itemById.map (fun e => e.2.id)).Nodup ∧
        (∀ e1 ∈ (addItem (addItem (addItem empty item1).state item2).state
            item3).state.itemById,
          ∀ e2 ∈ (addItem (addItem (addItem empty item1).state item2).state
            item3).state.itemById, e1.2.id = e2.2.id → e1 = e2)) :=
  ⟨Reachable.add _ item3 (Reachable.add _ item2 (Reachable.add _ item1 Reachable.init)),
    stored_ids_unique _
      (Reachable.add _ item3 (Reachable.add _ item2 (Reachable.add _ item1 Reachable.init)))⟩

/-- C12: in every reachable state each entry of the secondary index is keyed
by the description of the record it holds, and that record is the one the
primary index stores under the record's id; so every record of the secondary
index is in the primary index, and the secondary index has at most as many
entries as the primary index. -/
theorem secondary_within_primary (s : StorageManager) (hs : Reachable s) :
    (∀ e ∈ s.itemByDescription,
        e.2.description = e.1 ∧ find s.itemById e.2.id = some e.2) ∧
      (∀ e ∈ s.itemByDescription, (e.2.id, e.2) ∈ s.itemById) ∧
      s.itemByDescription.length ≤ s.itemById.length := by
  have hwf := wellFormed_of_reachable hs
  have hkey : ∀ e ∈ s.itemByDescription,
      e.2.description = e.1 ∧ find s.itemById e.2.id = some e.2 := by
    rintro ⟨d, v⟩ he
    exact hwf.descKey d v (find_of_mem hwf.sortedByDescription he)
  have hmem : ∀ e ∈ s.itemByDescription, (e.2.id, e.2) ∈ s.itemById :=
    fun e he => mem_of_find (hkey e he).2
  refine ⟨hkey, hmem, ?_⟩
  have hnd : (s.itemByDescription.map (fun e => (e.2.id, e.2))).Nodup := by
    refine List.Nodup.map_on ?_ ?_
    · rintro ⟨d1, v1⟩ h1 ⟨d2, v2⟩ h2 heq
      simp only [Prod.mk.injEq] at heq
      have e1 := (hkey _ h1).1
      have e2 := (hkey _ h2).1
      simp only at e1 e2
      rw [← e1, ← e2, heq.2]
    · exact List.Nodup.of_map _ (keys_nodup_of_sorted hwf.sortedByDescription)
  have hsub : s.itemByDescription.map (fun e => (e.2.id, e.2)) ⊆ s.itemById := by
    intro x hx
    obtain ⟨e, he, rfl⟩ := List.mem_map.mp hx
    exact hmem e he
  have hlen := (List.subperm_of_subset hnd hsub).length_le
  simpa using hlen

theorem secondary_within_primary_witness :
    Reachable sharedDescription ∧
      ((∀ e ∈ sharedDescription.itemByDescription,
          e.2.description = e.1 ∧ find sharedDescription.itemById e.2.id = some e.2) ∧
        (∀ e ∈ sharedDescription.itemByDescription,
          (e.2.id, e.2) ∈ sharedDescription.itemById) ∧
        sharedDescription.itemByDescription.length ≤ sharedDescription.itemById.length) :=
  ⟨Reachable.add _ item3 (Reachable.add _ item1 Reachable.init),
    secondary_within_primary _
      (Reachable.add _ item3 (Reachable.add _ item1 Reachable.init))⟩

/-! ## One entry per description -/

/-- C14: an `addItem` or `removeItem` call leaves the outcome of `findById`
unchanged, the record returned or the exception thrown, for every id other
than the one the call is about; this holds for every state and every call,
the successful ones in particular. -/
theorem findById_frame (s : StorageManager) (r : StoredItem) (id k : String)
    (hr : k ≠ r.id) (hid : k ≠ id) :
    (findById (addItem s r).state k).result = (findById s k).result ∧
      (findById (removeItem s id).state k).result = (findById s k).result := by
  have hr' : ¬ r.id = k := fun e => hr e.symm
  have hid' : ¬ id = k := fun e => hid e.symm
  constructor
  · cases hst : isStored s r.id with
    | true => rw [addItem_stored hst]
    | false =>
      rw [addItem_fresh hst]
      simp only [findById, find_assign, hr', if_false]
      cases find s.itemById k <;> rfl
  · cases hf : find s.itemById id with
    | none => rw [removeItem_missing hf]
    | some v =>
      rw [removeItem_stored hf]
      simp only [findById, find_erase, hid', if_false]
      cases find s.itemById k <;> rfl

theorem findById_frame_witness :
    "ITEM001" ≠ item3.id ∧ "ITEM001" ≠ "ITEM002" ∧
      (addItem (addItem (addItem empty item1).state item2).state item3).result
        = .returned () ∧
      (removeItem (addItem (addItem empty item1).state item2).state "ITEM002").result
        = .returned () ∧
      (findById (addItem (addItem empty item1).state item2).state "ITEM001").result
        = .returned item1 ∧
      ((findById (addItem (addItem (addItem empty item1).state item2).state item3).state
            "ITEM001").result =
          (findById (addItem (addItem empty item1).state item2).state "ITEM001").result ∧
        (findById (removeItem (addItem (addItem empty item1).state item2).state
            "ITEM002").state "ITEM001").result =
          (findById (addItem (addItem empty item1).state item2).state "ITEM001").result) :=
  ⟨by decide, by decide, by decide, by decide, by decide,
    findById_frame (addItem (addItem empty item1).state item2).state item3 "ITEM002"
      "ITEM001" (by decide) (by decide)⟩

theorem key_ne_of_find_none {m : ItemMap} {k : String} (h : find m k = none) :
    ∀ e ∈ m, e.1 ≠ k := by
  induction m with
  | nil => intro e he; simp at he
  | cons e' rest ih =>
    obtain ⟨k', v'⟩ := e'
    simp only [find] at h
    by_cases h1 : k' = k
    · simp [h1] at h
    · simp only [h1, if_false] at h
      intro e he
      rcases List.mem_cons.mp he with he | he
      · rw [he]
        exact h1
      · exact ih h e he

theorem erase_of_find_none {m : ItemMap} {k : String} (h : find m k = none) :
    erase m k = m := by
  unfold erase
  rw [List.filter_eq_self]
  intro e he
  simpa using key_ne_of_find_none h e he

theorem erase_assign {m : ItemMap} {k : String} (v : StoredItem) (h : find m k = none) :
    erase (assign m k v) k = m := by
  induction m with
  | nil => simp [assign, erase]
  | cons e rest ih =>
    obtain ⟨k', v'⟩ := e
    have hall := erase_of_find_none h
    simp only [find] at h
    by_cases h1 : k' = k
    · simp [h1] at h
    · simp only [h1, if_false] at h
      have ih' := ih h
      simp only [erase] at ih' hall ⊢
      simp only [assign, h1, if_false]
      cases h2 : stringLess k k' with
      | true =>
        simp only [if_true]
        rw [List.filter_cons_of_neg (by simp)]
        exact hall
      | false =>
        simp only [Bool.false_eq_true, if_false, List.filter, ne_eq, h1, not_false_eq_true,
          decide_True, ih']

/-- C15: when neither the id of a record is a key of the primary index nor
its description a key of the secondary index, adding the record and then
removing its id both return normally and leave the manager, both indexes,
exactly as it was before the add. -/
theorem addItem_then_removeItem_restores (s : StorageManager) (r : StoredItem)
    (h1 : find s.itemById r.id = none)
    (h2 : find s.itemByDescription r.description = none) :
    (addItem s r).result = .returned () ∧
      (removeItem (addItem s r).state r.id).result = .returned () ∧
      (removeItem (addItem s r).state r.id).state.itemById = s.itemById ∧
      (removeItem (addItem s r).state r.id).state.itemByDescription = s.itemByDescription ∧
      (removeItem (addItem s r).state r.id).state = s := by
  have hst : isStored s r.id = false := isStored_eq_false_iff.mpr h1
  have hfind : find (addItem s r).state.itemById r.id = some r := by
    rw [addItem_fresh hst]
    simp [find_assign]
  have hstate : (removeItem (addItem s r).state r.id).state = s := by
    rw [removeItem_stored hfind, addItem_fresh hst]
    simp only [erase_assign r h1, erase_assign r h2]
  refine ⟨by rw [addItem_fresh hst], by rw [removeItem_stored hfind], ?_, ?_, hstate⟩
  · rw [hstate]
  · rw [hstate]

theorem addItem_then_removeItem_restores_witness :
    find (addItem empty item1).state.itemById item2.id = none ∧
      find (addItem empty item1).state.itemByDescription item2.description = none ∧
      ((addItem (addItem empty item1).state item2).result = .returned () ∧
        (removeItem (addItem (addItem empty item1).state item2).state item2.id).result
          = .returned () ∧
        (removeItem (addItem (addItem empty item1).state item2).state
            item2.id).state.itemById = (addItem empty item1).state.itemById ∧
        (removeItem (addItem (addItem empty item1).state item2).state
            item2.id).state.itemByDescription =
          (addItem empty item1).state.itemByDescription ∧
        (removeItem (addItem (addItem empty item1).state item2).state item2.id).state =
          (addItem empty item1).state) :=
  ⟨by decide, by decide,
    addItem_then_removeItem_restores (addItem empty item1).state item2
      (by decide) (by decide)⟩

end StorageManager
